/-
Verification of the Claude Skills Factory backend (analysis-to-artifact
pipeline).  The JavaScript sources are shallowly embedded as executable Lean
definitions: pure helpers become Lean functions, the stateful analysis cache
and the relational store become explicit state passing, fallible code returns
Except/Option.  JSON columns of the relational store are modelled as
structured values, and JavaScript numbers occurring in parsed JSON are
modelled exactly as rationals (JSON literals denote exact decimal values).
-/
import Mathlib

namespace SkillsFactory

/-! ### Character and string helpers (services/skillGeneration.js `formatSkillName`)

JavaScript string primitives are modelled over `List Char` using explicit
ASCII code points, matching the regexes in the source character for
character. -/

/-- Model of the regex character class `[a-z0-9]` (code points 97..122 and
48..57). -/
def isLowerAlnum (c : Char) : Bool :=
  (97 ≤ c.toNat && c.toNat ≤ 122) || (48 ≤ c.toNat && c.toNat ≤ 57)

/-- Model of `String.prototype.toLowerCase` on one character: ASCII letters
A..Z (65..90) are shifted down by 32, everything else is unchanged (the
inputs in this development are ASCII). -/
def jsLowerChar (c : Char) : Char :=
  if 65 ≤ c.toNat && c.toNat ≤ 90 then Char.ofNat (c.toNat + 32) else c

/-- Model of the ECMAScript WhiteSpace and LineTerminator sets removed by
`String.prototype.trim`. -/
def isJsWhitespace (c : Char) : Bool :=
  (9 ≤ c.toNat && c.toNat ≤ 13) || c.toNat = 32 || c.toNat = 160 ||
  c.toNat = 5760 || (8192 ≤ c.toNat && c.toNat ≤ 8202) ||
  c.toNat = 8232 || c.toNat = 8233 || c.toNat = 8239 || c.toNat = 8287 ||
  c.toNat = 12288 || c.toNat = 65279

/-- Model of `String.prototype.trim`: drop leading and trailing whitespace. -/
def jsTrimChars (l : List Char) : List Char :=
  ((l.dropWhile isJsWhitespace).reverse.dropWhile isJsWhitespace).reverse

/-- Model of `.replace(/[^a-z0-9]+/g, '-')`: every maximal run of characters
outside `[a-z0-9]` is replaced by a single hyphen.  The flag records whether
the scanner is inside such a run (whose first character already emitted the
hyphen). -/
def collapseAux : Bool → List Char → List Char
  | _, [] => []
  | inRun, c :: cs =>
    if isLowerAlnum c then c :: collapseAux false cs
    else if inRun then collapseAux true cs
    else '-' :: collapseAux true cs

def collapseNonAlnum (l : List Char) : List Char :=
  collapseAux false l

/-- Model of `.replace(/^-+|-+$/g, '')`: drop the leading and the trailing
run of hyphens. -/
def stripEdgeHyphens (l : List Char) : List Char :=
  ((l.dropWhile (fun c => c == '-')).reverse.dropWhile (fun c => c == '-')).reverse

/-- Embedding of `formatSkillName` (services/skillGeneration.js lines
758-764): lowercase, trim, collapse non-alphanumeric runs to hyphens, strip
edge hyphens. -/
def formatSkillName (name : String) : String :=
  ⟨stripEdgeHyphens (collapseNonAlnum (jsTrimChars (name.data.map jsLowerChar)))⟩

/-- Model of the regex test `/^[a-z0-9-]+$/` used by `validateSkillName`
(services/skillGeneration.js line 730): nonempty, and every character is a
lowercase letter, a digit, or a hyphen. -/
def isSlugString (s : String) : Bool :=
  !s.data.isEmpty && s.data.all (fun c => isLowerAlnum c || c == '-')

/-- The normal form asserted by the specification for skill names: lowercase
alphanumerics and hyphens only, with no leading or trailing hyphen.  This
definition follows the specification text and is compared against
`formatSkillName` from the source. -/
def specNormalizedName (s : String) : Bool :=
  s.data.all (fun c => isLowerAlnum c || c == '-') &&
  !(s.data.head? == some '-') && !(s.data.getLast? == some '-')

/-- Strengthened normal form: additionally no two consecutive hyphens.  This
is the exact fixed-point set of `formatSkillName` on slug-shaped names. -/
def noDoubleHyphen : List Char → Bool
  | [] => true
  | [_] => true
  | a :: b :: rest => !(a == '-' && b == '-') && noDoubleHyphen (b :: rest)

/-! ### JSON values and the model of `JSON.parse`

`parseClaudeResponse` and `validateAnalysisResponse` (utils/claudeClient.js)
operate on the result of `JSON.parse`.  JSON values are embedded with object
fields kept in insertion order and duplicate keys collapsed on construction
(JavaScript property assignment keeps the first position and overwrites the
value, so parsed objects always have distinct keys).  Numbers are modelled
exactly as rationals. -/

inductive Json where
  | null : Json
  | bool (b : Bool) : Json
  | num (q : Rat) : Json
  | str (s : String) : Json
  | arr (elems : List Json) : Json
  | obj (fields : List (String × Json)) : Json

/-- Property lookup on a JSON value: objects look the key up, every other
value has no string-keyed own properties. -/
def jsGet (j : Json) (key : String) : Option Json :=
  match j with
  | .obj fields => (fields.find? (fun f => f.1 == key)).map (fun f => f.2)
  | _ => none

/-- Property assignment on a JSON object: overwrite in place if the key
exists, append otherwise (JavaScript enumeration-order semantics).  On
non-objects the value is returned unchanged (unreachable in this
development). -/
def jsSetField (j : Json) (key : String) (v : Json) : Json :=
  match j with
  | .obj fields =>
    if fields.any (fun f => f.1 == key) then
      .obj (fields.map (fun f => if f.1 == key then (f.1, v) else f))
    else
      .obj (fields ++ [(key, v)])
  | _ => j

/-- JavaScript truthiness of a JSON value. -/
def jsTruthy : Json → Bool
  | .null => false
  | .bool b => b
  | .num q => !(q == 0)
  | .str s => !(s == "")
  | .arr _ => true
  | .obj _ => true

/-- JavaScript `typeof x === 'object'` for a JSON value: objects, arrays and
null. -/
def jsTypeofObject : Json → Bool
  | .null => true
  | .arr _ => true
  | .obj _ => true
  | _ => false

/-- JSON insignificant whitespace. -/
def isJsonWs (c : Char) : Bool :=
  c == ' ' || c == '\t' || c == '\n' || c == '\r'

def skipJsonWs (l : List Char) : List Char :=
  l.dropWhile isJsonWs

/-- Decode one hexadecimal digit. -/
def hexDigitVal (c : Char) : Option Nat :=
  if 48 ≤ c.toNat && c.toNat ≤ 57 then some (c.toNat - 48)
  else if 97 ≤ c.toNat && c.toNat ≤ 102 then some (c.toNat - 87)
  else if 65 ≤ c.toNat && c.toNat ≤ 70 then some (c.toNat - 55)
  else none

/-- Parse the body of a JSON string literal (after the opening quote),
handling the escape sequences accepted by `JSON.parse` and rejecting raw
control characters. -/
def jsonStrBody : List Char → Option (List Char × List Char)
  | [] => none
  | '"' :: rest => some ([], rest)
  | '\\' :: 'u' :: h1 :: h2 :: h3 :: h4 :: rest =>
    match hexDigitVal h1, hexDigitVal h2, hexDigitVal h3, hexDigitVal h4 with
    | some a, some b, some c, some d =>
      (jsonStrBody rest).map
        (fun r => (Char.ofNat (((a * 16 + b) * 16 + c) * 16 + d) :: r.1, r.2))
    | _, _, _, _ => none
  | '\\' :: e :: rest =>
    let esc : Option Char :=
      if e == '"' then some '"'
      else if e == '\\' then some '\\'
      else if e == '/' then some '/'
      else if e == 'b' then some (Char.ofNat 8)
      else if e == 'f' then some (Char.ofNat 12)
      else if e == 'n' then some '\n'
      else if e == 'r' then some '\r'
      else if e == 't' then some '\t'
      else none
    match esc with
    | some c => (jsonStrBody rest).map (fun r => (c :: r.1, r.2))
    | none => none
  | c :: rest =>
    if c.toNat < 32 then none
    else (jsonStrBody rest).map (fun r => (c :: r.1, r.2))

def isDigitChar (c : Char) : Bool :=
  48 ≤ c.toNat && c.toNat ≤ 57

def digitsToNat (l : List Char) : Nat :=
  l.foldl (fun acc c => acc * 10 + (c.toNat - 48)) 0

/-- Parse the integer-part digits of a JSON number: a single `0`, or a
nonzero digit followed by more digits (leading zeros are rejected, as by
`JSON.parse`). -/
def jsonIntDigits : List Char → Option (List Char × List Char)
  | '0' :: rest =>
    match rest with
    | c :: _ => if isDigitChar c then none else some (['0'], rest)
    | [] => some (['0'], [])
  | c :: rest =>
    if isDigitChar c then some (c :: rest.takeWhile isDigitChar, rest.dropWhile isDigitChar)
    else none
  | [] => none

/-- Sequential JavaScript property assignment over a list of key/value
pairs: a repeated key keeps its first position but takes the later value. -/
def objAssign (l : List (String × Json)) : List (String × Json) :=
  l.foldl
    (fun acc p =>
      if acc.any (fun f => f.1 == p.1) then
        acc.map (fun f => if f.1 == p.1 then (f.1, p.2) else f)
      else acc ++ [p])
    []

/-- Parse a JSON number literal and return its exact rational value. -/
def jsonNumber (l : List Char) : Option (Rat × List Char) :=
  let (neg, l1) := match l with
    | '-' :: rest => (true, rest)
    | _ => (false, l)
  match jsonIntDigits l1 with
  | none => none
  | some (intDs, l2) =>
    let (fracDs, l3) := match l2 with
      | '.' :: rest =>
        let ds := rest.takeWhile isDigitChar
        (ds, rest.dropWhile isDigitChar)
      | _ => ([], l2)
    if l2 ≠ l3 && fracDs.isEmpty then none
    else
      let expPart : Option (Bool × List Char × List Char) := match l3 with
        | 'e' :: rest | 'E' :: rest =>
          let (eneg, r1) := match rest with
            | '+' :: r => (false, r)
            | '-' :: r => (true, r)
            | _ => (false, rest)
          let ds := r1.takeWhile isDigitChar
          if ds.isEmpty then none else some (eneg, ds, r1.dropWhile isDigitChar)
        | _ => some (false, [], l3)
      match expPart with
      | none => none
      | some (eneg, expDs, l4) =>
        let mantN : Nat := digitsToNat (intDs ++ fracDs)
        let mant : Int := if neg then -(Int.ofNat mantN) else Int.ofNat mantN
        let e10 : Int :=
          (if eneg then -(Int.ofNat (digitsToNat expDs)) else Int.ofNat (digitsToNat expDs)) -
            Int.ofNat fracDs.length
        let q : Rat :=
          if 0 ≤ e10 then mkRat (mant * Int.ofNat (10 ^ e10.toNat)) 1
          else mkRat mant (10 ^ (-e10).toNat)
        some (q, l4)

mutual

/-- Fuel-indexed model of `JSON.parse` on one value; the fuel strictly
exceeds the input length at the top-level call, so it never runs out on real
input. -/
def jsonVal : Nat → List Char → Option (Json × List Char)
  | 0, _ => none
  | fuel + 1, l =>
    match skipJsonWs l with
    | 'n' :: 'u' :: 'l' :: 'l' :: rest => some (.null, rest)
    | 't' :: 'r' :: 'u' :: 'e' :: rest => some (.bool true, rest)
    | 'f' :: 'a' :: 'l' :: 's' :: 'e' :: rest => some (.bool false, rest)
    | '"' :: rest => (jsonStrBody rest).map (fun r => (.str ⟨r.1⟩, r.2))
    | '[' :: rest =>
      (match skipJsonWs rest with
       | ']' :: r2 => some (.arr [], r2)
       | _ => (jsonElems fuel rest).map (fun r => (.arr r.1, r.2)))
    | '{' :: rest =>
      (match skipJsonWs rest with
       | '}' :: r2 => some (.obj [], r2)
       | _ => (jsonMembers fuel rest).map (fun r => (.obj (objAssign r.1), r.2)))
    | l1 => (jsonNumber l1).map (fun r => (.num r.1, r.2))

/-- Comma-separated array elements, up to and including the closing
bracket. -/
def jsonElems : Nat → List Char → Option (List Json × List Char)
  | 0, _ => none
  | fuel + 1, l =>
    match jsonVal fuel l with
    | none => none
    | some (v, rest) =>
      match skipJsonWs rest with
      | ',' :: r2 => (jsonElems fuel r2).map (fun r => (v :: r.1, r.2))
      | ']' :: r2 => some ([v], r2)
      | _ => none

/-- Comma-separated object members, up to and including the closing brace;
duplicate keys overwrite in place as JavaScript property assignment does. -/
def jsonMembers : Nat → List Char → Option (List (String × Json) × List Char)
  | 0, _ => none
  | fuel + 1, l =>
    match skipJsonWs l with
    | '"' :: rest =>
      match jsonStrBody rest with
      | none => none
      | some (keyChars, r1) =>
        match skipJsonWs r1 with
        | ':' :: r2 =>
          match jsonVal fuel r2 with
          | none => none
          | some (v, r3) =>
            match skipJsonWs r3 with
            | ',' :: r4 =>
              (jsonMembers fuel r4).map (fun r => ((⟨keyChars⟩, v) :: r.1, r.2))
            | '}' :: r4 => some ([(⟨keyChars⟩, v)], r4)
            | _ => none
        | _ => none
    | _ => none

end

/-- Model of `JSON.parse`: parse one value and require only whitespace to
remain. -/
def jsonParse (s : String) : Option Json :=
  match jsonVal (2 * s.data.length + 2) s.data with
  | some (j, rest) => if (skipJsonWs rest).isEmpty then some j else none
  | none => none

/-! ### Response parsing (utils/claudeClient.js `parseClaudeResponse`) -/

/-- Index of the first occurrence of `pat` as a contiguous sublist of `l`. -/
def findSubIdx (pat : List Char) : List Char → Option Nat
  | [] => if pat.isEmpty then some 0 else none
  | c :: cs =>
    if pat.isPrefixOf (c :: cs) then some 0
    else (findSubIdx pat cs).map (· + 1)

/-- Model of matching the regex pattern ` ```json\n([\s\S]*?)\n``` ` (a
fenced code block labeled json) and returning the lazily-captured interior:
the first position where the opening marker occurs, then the earliest
closing marker after it. -/
def fencedJsonMatch (s : String) : Option String :=
  let openMarker : List Char := "```json\n".data
  let closeMarker : List Char := "\n```".data
  match findSubIdx openMarker s.data with
  | none => none
  | some i =>
    let inner := s.data.drop (i + openMarker.length)
    match findSubIdx closeMarker inner with
    | none => none
    | some j => some ⟨inner.take j⟩

/-- Model of matching the greedy regex ` \{[\s\S]*\} `: the substring from
the first opening brace to the last closing brace, when the first `\x7b`
precedes the last `\x7d`. -/
def greedyBracesMatch (s : String) : Option String :=
  match findSubIdx ['{'] s.data with
  | none => none
  | some i =>
    match findSubIdx ['}'] s.data.reverse with
    | none => none
    | some jr =>
      let j := s.data.length - 1 - jr
      if i < j then some ⟨(s.data.drop i).take (j - i + 1)⟩ else none

/-- The parse strategy asserted by the specification for the third fallback:
the first balanced `\x7b...\x7d` substring (brace counting from the first
opening brace).  This definition follows the specification text and is
compared with the greedy regex actually used by the source. -/
def firstBalancedBraces (s : String) : Option String :=
  match findSubIdx ['{'] s.data with
  | none => none
  | some i =>
    let rest := s.data.drop i
    let scan := rest.foldl
      (fun acc c =>
        match acc with
        | (found, depth, n) =>
          if found.isSome then acc
          else
            let depth1 := if c == '{' then depth + 1 else if c == '}' then depth - 1 else depth
            if c == '}' && depth1 = 0 then (some (n + 1), depth1, n + 1)
            else (none, depth1, n + 1))
      ((none : Option Nat), (0 : Int), (0 : Nat))
    (scan.1).map (fun len => ⟨rest.take len⟩)

/-- Embedding of `parseClaudeResponse` (utils/claudeClient.js lines
234-262): direct `JSON.parse`, else the fenced json block (failing hard if
its interior does not parse), else the greedy brace substring. -/
def parseClaudeResponse (responseText : String) : Except String Json :=
  match jsonParse responseText with
  | some j => .ok j
  | none =>
    match fencedJsonMatch responseText with
    | some interior =>
      match jsonParse interior with
      | some j => .ok j
      | none => .error "Failed to parse JSON from markdown block"
    | none =>
      match greedyBracesMatch responseText with
      | some sub =>
        match jsonParse sub with
        | some j => .ok j
        | none => .error "Failed to parse extracted JSON object"
      | none => .error "No valid JSON found in response"

/-- The default confidence substituted by the validator. -/
def halfConfidence : Rat := mkRat 1 2

/-- Truth of the confidence check in `validateAnalysisResponse`: the field
is a number within `[0,1]` (JavaScript `typeof parsed.confidence ===
'number' && 0 <= c && c <= 1`, written as the negation of the source's
rejection test). -/
def confidenceValid (parsed : Json) : Bool :=
  match jsGet parsed "confidence" with
  | some (.num q) => decide (0 ≤ q) && decide (q ≤ 1)
  | _ => false

/-- Embedding of `validateAnalysisResponse` (utils/claudeClient.js lines
264-279): reject non-objects and falsy values, reject a missing or falsy
`extractedData`, and replace an invalid or missing `confidence` by the
default 0.5. -/
def validateAnalysisResponse (parsed : Json) : Except String Json :=
  if !(jsTruthy parsed && jsTypeofObject parsed) then
    .error "Response must be an object"
  else if !((jsGet parsed "extractedData").map jsTruthy).getD false then
    .error "Missing extractedData field"
  else if confidenceValid parsed then
    .ok parsed
  else
    .ok (jsSetField parsed "confidence" (.num halfConfidence))

/-! ### Claude client errors and retry (utils/claudeClient.js) -/

/-- Classified error value thrown by `callClaudeAPI`: the error class name,
machine code, HTTP status, retryability flag, the retry-after hint carried
by `RateLimitError` (absent on every other class), and the message. -/
structure ClaudeErr where
  errName : String
  code : String
  status : Nat
  retryable : Bool
  retryAfter : Option String
  message : String
deriving DecidableEq

/-- One transport-level outcome of the underlying network call: a successful
response text, an HTTP error with status and optional retry-after header, or
a network error code such as ETIMEDOUT. -/
inductive Transport where
  | ok (text : String)
  | httpErr (status : Nat) (retryAfterHeader : Option String) (message : String)
  | netErr (code : String) (message : String)
deriving DecidableEq

/-- The retry-after hint computed by the 429 branch:
`error.headers?.['retry-after'] || 60` (an absent or empty header falls back
to 60). -/
def retryAfterHint (hdr : Option String) : String :=
  match hdr with
  | some s => if s == "" then "60" else s
  | none => "60"

/-- The `RateLimitError` built by the 429 branch of `callClaudeAPI`. -/
def rateLimitErrorOf (hdr : Option String) : ClaudeErr :=
  { errName := "RateLimitError", code := "RATE_LIMIT", status := 429, retryable := true,
    retryAfter := some (retryAfterHint hdr),
    message := "Rate limit exceeded. Retry after " ++ retryAfterHint hdr ++ "s" }

/-- Embedding of the error classification in `callClaudeAPI`
(utils/claudeClient.js lines 282-350): 429, 401, 5xx, 400, network
timeout/reset, then unknown. -/
def callClaudeAPI (t : Transport) : Except ClaudeErr String :=
  match t with
  | .ok text => .ok text
  | .httpErr status hdr msg =>
    if status = 429 then .error (rateLimitErrorOf hdr)
    else if status = 401 then
      .error { errName := "ClaudeAPIError", code := "AUTH_ERROR", status := 401,
               retryable := false, retryAfter := none, message := "Invalid API key" }
    else if 500 ≤ status then
      .error { errName := "ServiceError", code := "SERVER_ERROR", status := 500,
               retryable := true, retryAfter := none, message := "Claude API server error" }
    else if status = 400 then
      .error { errName := "ClaudeAPIError", code := "INVALID_REQUEST", status := 400,
               retryable := false, retryAfter := none, message := "Invalid request: " ++ msg }
    else
      .error { errName := "ClaudeAPIError", code := "UNKNOWN", status := status,
               retryable := false, retryAfter := none, message := msg }
  | .netErr code msg =>
    if code == "ETIMEDOUT" || code == "ECONNRESET" then
      .error { errName := "ClaudeAPIError", code := "TIMEOUT", status := 0,
               retryable := true, retryAfter := none, message := "Network timeout" }
    else
      .error { errName := "ClaudeAPIError", code := "UNKNOWN", status := 0,
               retryable := false, retryAfter := none, message := msg }

/-- The retry loop body of `callClaudeWithRetry`: attempts are numbered from
1; a non-retryable error is rethrown at once, and on attempt `maxRetries`
(zero remaining later attempts) the loop breaks and the last error is
thrown.  The transport outcome of attempt `i` is `api i`. -/
def retryGo (api : Nat → Transport) : Nat → Nat → Except ClaudeErr String
  | attempt, remaining =>
    match callClaudeAPI (api attempt) with
    | .ok s => .ok s
    | .error e =>
      if !e.retryable then .error e
      else
        match remaining with
        | 0 => .error e
        | r + 1 => retryGo api (attempt + 1) r

/-- Embedding of `callClaudeWithRetry` (utils/claudeClient.js lines
353-385): attempts 1 up to `maxRetries` (the default argument is 3); with
`maxRetries = 0` the JavaScript loop body never runs and the undefined last
error is thrown. -/
def callClaudeWithRetry (api : Nat → Transport) (maxRetries : Nat) :
    Except ClaudeErr String :=
  match maxRetries with
  | 0 =>
    .error { errName := "TypeError", code := "", status := 0, retryable := false,
             retryAfter := none, message := "undefined last error" }
  | m + 1 => retryGo api 1 m

/-! ### Content analysis service (services/contentAnalysis.js)

`analyzeContent` is embedded with explicit state: the in-memory analysis
cache, and counters for rate-limiter acquisitions and external service
invocations (one invocation per `callClaudeWithRateLimit` call; its internal
retries stay below this granularity).  The nondeterministic environment — the
outcome of each service invocation, the UUIDs from `crypto.randomUUID`, and
the wall-clock timestamps — is a family of streams indexed by invocation
count.  The 15-minute TTL expiry is timer-driven in the source; two calls
within the TTL window are modelled as two calls with no expiry event between
them. -/

/-- Model of the MD5 hex digest from the external `crypto` library (an
external collaborator per the specification, not part of this repository):
an unspecified but deterministic digest of the input string; the pipeline
relies only on its determinism. -/
def fingerprintHash (s : String) : String :=
  toString (s.data.foldl (fun h c => (h * 131 + c.toNat) % 18446744073709551616) 5381)

/-- Embedding of `getCacheKey` (services/contentAnalysis.js lines 291-295):
`contentType:md5hex(content + contentType)`. -/
def getCacheKey (content contentType : String) : String :=
  contentType ++ ":" ++ fingerprintHash (content ++ contentType)

/-- The keys of the `FRAMEWORKS` table. -/
def isKnownContentType (t : String) : Bool :=
  t == "copywriting" || t == "process" || t == "technical"

/-- Embedding of `estimateTokens`: `Math.ceil(text.length / 4)`. -/
def estimateTokens (text : String) : Nat :=
  (text.length + 3) / 4

/-- Embedding of `shouldAnalyzeContent`. -/
def shouldAnalyzeContent (content : String) : Bool :=
  estimateTokens content ≤ 150000

/-- The analysis result record built by step 7 of `analyzeContent`.
`notes` keeps the JSON value (`validated.notes || ''` may be any truthy
JSON value). -/
structure AnalysisResult where
  analysisId : String
  contentType : String
  extractedData : Json
  confidence : Rat
  notes : Json
  timestamp : String

/-- Errors surfaced by `analyzeContent`: its own validation failures and
wrapped unknown errors (`AnalysisError`), and the rethrown rate-limit and
service errors. -/
inductive AnalyzeErr where
  | analysisError (message : String)
  | rateLimit (retryAfter : String) (message : String)
  | service (message : String)

/-- Environment of one process run: `svc n` is the outcome of the `n`-th
invocation of `callClaudeWithRateLimit` (counting from 0), `ids n` the
`n`-th generated UUID, `times n` the `n`-th timestamp. -/
structure AnalysisEnv where
  svc : Nat → Except ClaudeErr String
  ids : Nat → String
  times : Nat → String

/-- Process-wide mutable state touched by `analyzeContent`. -/
structure AnalysisState where
  cache : List (String × AnalysisResult)
  svcCalls : Nat
  rateAcquired : Nat
  uuidCount : Nat

/-- JavaScript `Map.get`. -/
def cacheGet (cache : List (String × AnalysisResult)) (key : String) :
    Option AnalysisResult :=
  (cache.find? (fun e => e.1 == key)).map (fun e => e.2)

/-- JavaScript `Map.set`: overwrite in place or append. -/
def cacheSet (cache : List (String × AnalysisResult)) (key : String)
    (v : AnalysisResult) : List (String × AnalysisResult) :=
  if cache.any (fun e => e.1 == key) then
    cache.map (fun e => if e.1 == key then (e.1, v) else e)
  else cache ++ [(key, v)]

/-- Rethrow classification of the outer catch in `analyzeContent`:
`RateLimitError` and `ServiceError` pass through, everything else is wrapped
in `AnalysisError('Analysis failed: ...')`. -/
def liftClaudeErr (e : ClaudeErr) : AnalyzeErr :=
  if e.code == "RATE_LIMIT" then .rateLimit (e.retryAfter.getD "60") e.message
  else if e.code == "SERVER_ERROR" then .service e.message
  else .analysisError ("Analysis failed: " ++ e.message)

/-- The confidence number of a validated response (always present and
numeric after `validateAnalysisResponse` succeeds on an object). -/
def confidenceOf (validated : Json) : Rat :=
  match jsGet validated "confidence" with
  | some (.num q) => q
  | _ => 0

/-- The `validated.notes || ''` field. -/
def notesOf (validated : Json) : Json :=
  match jsGet validated "notes" with
  | some v => if jsTruthy v then v else .str ""
  | none => .str ""

/-- Embedding of `analyzeContent` (services/contentAnalysis.js lines
145-242): input validation, cache lookup, size guard, rate-limited retried
service call, parse, validate, result construction, cache write. -/
def analyzeContent (env : AnalysisEnv) (content contentType : String)
    (st : AnalysisState) : Except AnalyzeErr AnalysisResult × AnalysisState :=
  if content == "" || content.length < 10 then
    (.error (.analysisError "Content too short for analysis"), st)
  else if 50000 < content.length then
    (.error (.analysisError "Content too long (max 50,000 characters)"), st)
  else if !isKnownContentType contentType then
    (.error (.analysisError ("Unknown content type: " ++ contentType ++
      ". Supported types: copywriting, process, technical")), st)
  else
    let cacheKey := getCacheKey content contentType
    match cacheGet st.cache cacheKey with
    | some cached => (.ok cached, st)
    | none =>
      if !shouldAnalyzeContent content then
        (.error (.analysisError
          "Content too large for analysis. Consider breaking it into smaller chunks."), st)
      else
        let st1 : AnalysisState :=
          { st with rateAcquired := st.rateAcquired + 1, svcCalls := st.svcCalls + 1 }
        match env.svc st.svcCalls with
        | .error e => (.error (liftClaudeErr e), st1)
        | .ok responseText =>
          match parseClaudeResponse responseText with
          | .error msg => (.error (.analysisError ("Analysis failed: " ++ msg)), st1)
          | .ok parsed =>
            match validateAnalysisResponse parsed with
            | .error msg => (.error (.analysisError ("Analysis failed: " ++ msg)), st1)
            | .ok validated =>
              let result : AnalysisResult :=
                { analysisId := env.ids st.uuidCount
                  contentType := contentType
                  extractedData := (jsGet validated "extractedData").getD .null
                  confidence := confidenceOf validated
                  notes := notesOf validated
                  timestamp := env.times st.uuidCount }
              let st2 : AnalysisState :=
                { st1 with uuidCount := st1.uuidCount + 1
                           cache := cacheSet st1.cache cacheKey result }
              (.ok result, st2)

/-! ### Archive packaging (services/skillGeneration.js `createSkillZip`)

A produced archive is modelled as its list of file entries (directory
placeholder entries elided) plus the compression parameters passed to
JSZip.  DEFLATE is lossless, so unpacking an archive is reading its
entries.  The skill-files object handed to `createSkillZip` is a JavaScript
object with a main-document property and a references map; the two call
sites in the repository use different property names for the main document
(`skill.md` in `generateSkill`, `SKILL.md` in the download and publish
endpoints of the second api/skills.js variant), so both properties are
modelled.  JSZip stores a `null`/`undefined` data argument as an empty
entry. -/

structure SkillFilesObj where
  mainLower : Option String
  mainUpper : Option String
  references : List (String × String)

structure ZipArchive where
  entries : List (String × String)
  compressionMethod : String
  compressionLevel : Nat
deriving DecidableEq

/-- Embedding of `createSkillZip` (services/skillGeneration.js lines
674-697): the root entry is read from the `skill.md` property, every
reference goes under `references/`, compression is DEFLATE at level 9. -/
def createSkillZip (skillFiles : SkillFilesObj) : ZipArchive :=
  { entries :=
      ("skill.md", (skillFiles.mainLower).getD "") ::
        skillFiles.references.map (fun e => ("references/" ++ e.1, e.2))
    compressionMethod := "DEFLATE"
    compressionLevel := 9 }

/-- The skill-files object built by `generateSkill` via `generateSkillFiles`
(services/skillGeneration.js lines 640-643): the rendered main document is
stored under the `skill.md` property. -/
def generatedSkillFiles (mainDocument : String) (references : List (String × String)) :
    SkillFilesObj :=
  { mainLower := some mainDocument, mainUpper := none, references := references }

/-- The skill-files object built by the download endpoint of the second
api/skills.js variant (lines 996-999): the stored main content is placed
under the `SKILL.md` property. -/
def downloadSkillFiles (mainContent : String) (references : List (String × String)) :
    SkillFilesObj :=
  { mainLower := none, mainUpper := some mainContent, references := references }

/-! ### Versioned mutation store (api/skills.js and the relational schema)

The `skills` and `skill_versions` tables are embedded as row lists; JSON
columns hold structured values, and snapshot rows copy them verbatim.
Failing requests (validation failures, missing rows, and uniqueness-
constraint violations that roll the transaction back) leave the store
unchanged. -/

structure SkillRow where
  id : Nat
  name : String
  description : String
  skillType : String
  version : Nat
  mainContent : String
  refs : List (String × String)
  metadata : Json

structure VersionRow where
  skillId : Nat
  version : Nat
  mainContent : String
  refs : List (String × String)
  metadata : Json

structure SkillsDb where
  skills : List SkillRow
  versions : List VersionRow
  nextId : Nat

def initDb : SkillsDb :=
  { skills := [], versions := [], nextId := 1 }

/-- The snapshot rows of one skill, in insertion order. -/
def snapsFor (db : SkillsDb) (id : Nat) : List VersionRow :=
  db.versions.filter (fun v => v.skillId = id)

/-- The first `skills` row with the given id (`db.prepare(...).get`). -/
def findSkill (db : SkillsDb) (id : Nat) : Option SkillRow :=
  db.skills.find? (fun s => s.id = id)

/-- Embedding of `validateSkillName` (services/skillGeneration.js lines
720-740): length bounds on the raw name, the slug regex on the formatted
name, and the duplicate check against the formatted name. -/
def validateSkillNameOk (db : SkillsDb) (name : String) : Bool :=
  !(name == "") && 3 ≤ name.length && name.length ≤ 50 &&
  isSlugString (formatSkillName name) &&
  !(db.skills.any (fun s => s.name == formatSkillName name))

/-- Embedding of the creation path (`generateSkill` steps 1 and 5 with
`saveSkillToDatabase`, services/skillGeneration.js lines 562-625 and
704-714): validate the name and type, then insert the formatted name at
version 1. -/
def createSkill (db : SkillsDb) (skillName description skillType mainContent : String)
    (refs : List (String × String)) (metadata : Json) :
    Except String (SkillsDb × Nat) :=
  if !validateSkillNameOk db skillName then
    .error "Skill generation failed: invalid or duplicate skill name"
  else if !isKnownContentType skillType then
    .error "Skill generation failed: invalid skill type"
  else
    let row : SkillRow :=
      { id := db.nextId, name := formatSkillName skillName,
        description := description, skillType := skillType, version := 1,
        mainContent := mainContent, refs := refs, metadata := metadata }
    .ok ({ skills := db.skills ++ [row], versions := db.versions,
           nextId := db.nextId + 1 }, db.nextId)

/-- The update request body after zod validation
(`UpdateSkillRequestSchema`, api/skills.js lines 17-23): every field
optional, `name` length in 3..50, `mainContent` length at least 100. -/
structure UpdateReq where
  reqName : Option String
  reqDescription : Option String
  reqMainContent : Option String
  reqReferences : Option (List (String × String))
  reqTags : Option (List String)

def zodUpdateOk (r : UpdateReq) : Bool :=
  (match r.reqName with
   | some n => 3 ≤ n.length && n.length ≤ 50
   | none => true) &&
  (match r.reqMainContent with
   | some m => 100 ≤ m.length
   | none => true)

inductive UpdateErr where
  | badRequest
  | notFound
  | serverError
deriving DecidableEq

/-- JavaScript truthiness gate on an optional string field: the field is
applied when provided and nonempty. -/
def strFieldApplied : Option String → Bool
  | some s => !(s == "")
  | none => false

/-- The `skill_versions` row inserted by the update transaction: a verbatim
copy of the current row's mutable columns. -/
def snapshotOf (cur : SkillRow) (id : Nat) : VersionRow :=
  { skillId := id, version := cur.version, mainContent := cur.mainContent,
    refs := cur.refs, metadata := cur.metadata }

/-- The truthiness-gated field application of the update transaction
(api/skills.js lines 282-309): a provided falsy string field is skipped;
`references` and `tags`, being objects and arrays, are always truthy when
provided; `tags` is written into the stored metadata; the version is
incremented. -/
def applyUpdateFields (cur : SkillRow) (req : UpdateReq) : SkillRow :=
  { cur with
    name := if strFieldApplied req.reqName then (req.reqName).getD cur.name else cur.name
    description :=
      if strFieldApplied req.reqDescription then (req.reqDescription).getD cur.description
      else cur.description
    mainContent :=
      if strFieldApplied req.reqMainContent then (req.reqMainContent).getD cur.mainContent
      else cur.mainContent
    refs := match req.reqReferences with
      | some rs => rs
      | none => cur.refs
    metadata := match req.reqTags with
      | some ts => jsSetField cur.metadata "tags" (.arr (ts.map .str))
      | none => cur.metadata
    version := cur.version + 1 }

/-- Embedding of the `PUT /api/skills/:id` transaction (api/skills.js lines
243-344): snapshot the current row into `skill_versions`, apply only the
truthy fields, bump the version.  A violated uniqueness constraint
(duplicate `(skill_id, version)` snapshot or duplicate skill name) throws
inside the transaction and rolls everything back. -/
def updateSkill (db : SkillsDb) (id : Nat) (req : UpdateReq) :
    Except UpdateErr (SkillsDb × Nat) :=
  if !zodUpdateOk req then .error .badRequest
  else
    match findSkill db id with
    | none => .error .notFound
    | some cur =>
      if db.versions.any (fun v => v.skillId = id && v.version = cur.version) then
        .error .serverError
      else if db.skills.any
          (fun s => !(s.id = id) && s.name == (applyUpdateFields cur req).name) then
        .error .serverError
      else
        .ok ({ skills :=
                 db.skills.map (fun s => if s.id = id then applyUpdateFields cur req else s),
               versions := db.versions ++ [snapshotOf cur id],
               nextId := db.nextId }, cur.version + 1)

/-- Embedding of `DELETE /api/skills/:id` (api/skills.js lines 350-389)
with the schema's `ON DELETE CASCADE`: the row and all of its snapshots are
removed; AUTOINCREMENT ids are never reused. -/
def deleteSkill (db : SkillsDb) (id : Nat) : SkillsDb :=
  { skills := db.skills.filter (fun s => !(s.id = id)),
    versions := db.versions.filter (fun v => !(v.skillId = id)),
    nextId := db.nextId }

/-- One store operation issued through the API. -/
inductive DbOp where
  | create (skillName description skillType mainContent : String)
      (refs : List (String × String)) (metadata : Json)
  | update (id : Nat) (req : UpdateReq)
  | delete (id : Nat)

/-- Apply one operation; a failing request leaves the store unchanged. -/
def applyOp (db : SkillsDb) : DbOp → SkillsDb
  | .create n d t m r md =>
    match createSkill db n d t m r md with
    | .ok (db1, _) => db1
    | .error _ => db
  | .update id req =>
    match updateSkill db id req with
    | .ok (db1, _) => db1
    | .error _ => db
  | .delete id => deleteSkill db id

/-- The store reached from an empty database by a sequence of API
operations. -/
def execOps (ops : List DbOp) : SkillsDb :=
  ops.foldl applyOp initDb

/-! ### Auxiliary predicates and concrete instances used by the theorems -/

/-- Auxiliary store invariant carried through the induction: ids are fresh
and distinct, snapshots belong to live skills (`ON DELETE CASCADE`), and
each skill's snapshot versions are exactly `1..version-1` in order. -/
def StoreInv (db : SkillsDb) : Prop :=
  (∀ s ∈ db.skills, s.id < db.nextId) ∧
  (db.skills.map (fun s => s.id)).Nodup ∧
  (∀ v ∈ db.versions, ∃ s ∈ db.skills, s.id = v.skillId) ∧
  (∀ s ∈ db.skills, 1 ≤ s.version ∧
    (snapsFor db s.id).map (fun v => v.version) = List.range' 1 (s.version - 1))

/-- A transport transcript that returns HTTP 429 (with distinct retry-after
headers) on every attempt. -/
def apiAll429 : Nat → Transport :=
  fun n => Transport.httpErr 429 (some (toString (10 * n))) "rate limited"

/-- A transport transcript that returns HTTP 429 on the first three attempts
and succeeds on the fourth. -/
def api429ThenOk : Nat → Transport :=
  fun n => if n ≤ 3 then Transport.httpErr 429 (some (toString (10 * n))) "rate limited"
           else Transport.ok "late success"

/-- A transport transcript that returns HTTP 429 on the first two attempts
and succeeds on the third. -/
def api429Twice : Nat → Transport :=
  fun n => if n ≤ 2 then Transport.httpErr 429 none "rate limited"
           else Transport.ok "third try"

/-- A fixed environment for the concrete analysis runs: the single service
invocation returns a response whose JSON omits `confidence`. -/
def demoEnv : AnalysisEnv :=
  { svc := fun _ => .ok "\x7b\"extractedData\":\x7b\"x\":\"y\"\x7d\x7d"
    ids := fun n => "uuid-" ++ toString n
    times := fun n => "t" ++ toString n }

def demoContent : String := "Sample content, definitely long enough."

def demoState0 : AnalysisState :=
  { cache := [], svcCalls := 0, rateAcquired := 0, uuidCount := 0 }

/-- The analysis result of running `demoEnv` on `demoContent`. -/
def demoResult : AnalysisResult :=
  { analysisId := "uuid-0", contentType := "process",
    extractedData := Json.obj [("x", Json.str "y")],
    confidence := halfConfidence, notes := Json.str "", timestamp := "t0" }

/-- The state after the first `demoEnv` analysis call. -/
def demoState1 : AnalysisState :=
  { cache := [(getCacheKey demoContent "process", demoResult)],
    svcCalls := 1, rateAcquired := 1, uuidCount := 1 }

/-- An update request that changes nothing but the description. -/
def emptyDescriptionReq : UpdateReq :=
  { reqName := none, reqDescription := some "", reqMainContent := none,
    reqReferences := none, reqTags := none }

/-- A create-then-rename history exercising the update operation's name
field. -/
def demoOpsRename : List DbOp :=
  [DbOp.create "demo skill" "d" "process" "main" [] (Json.obj []),
   DbOp.update 1
     { reqName := some "My Skill!!", reqDescription := none, reqMainContent := none,
       reqReferences := none, reqTags := none }]

/-- The store holding one freshly created skill. -/
def demoDbOne : SkillsDb :=
  execOps [DbOp.create "demo skill" "d" "process" "main" [] (Json.obj [])]

/-- The skills row created by `demoDbOne`. -/
def demoRowOne : SkillRow :=
  { id := 1, name := "demo-skill", description := "d", skillType := "process",
    version := 1, mainContent := "main", refs := [], metadata := Json.obj [] }

/-- The store after updating `demoDbOne` with an empty-string description. -/
def demoDbOneUpdated : SkillsDb :=
  applyOp demoDbOne (DbOp.update 1 emptyDescriptionReq)

/-! ## Theorems -/

/-- Claim C9: an analysis request whose content is shorter than the minimum
length (10 characters) fails with the validation error
(`AnalysisError('Content too short for analysis')`) before any cache read,
cache write, rate-limiter acquisition, or external service invocation: the
state is returned unchanged. -/
theorem analyzeContent_rejects_short_content (env : AnalysisEnv)
    (content contentType : String) (st : AnalysisState)
    (h : content.length < 10) :
    analyzeContent env content contentType st =
      (Except.error (AnalyzeErr.analysisError "Content too short for analysis"), st) := by
  have hd : decide (content.length < 10) = true := decide_eq_true h
  simp [analyzeContent, hd]

/-- Witness for C9: content of exactly 5 characters is rejected with the
state untouched. -/
theorem analyzeContent_rejects_short_content_witness :
    analyzeContent demoEnv "12345" "process" demoState0 =
      (Except.error (AnalyzeErr.analysisError "Content too short for analysis"), demoState0) :=
  analyzeContent_rejects_short_content demoEnv "12345" "process" demoState0 (by decide)

/-- Claim C3 as stated is false on the code: with the default
`maxRetries = 3` the operation is invoked at most 3 times, so a service that
returns HTTP 429 on the first three attempts and would succeed on the fourth
still fails; the operation never succeeds. -/
theorem retry_fourth_attempt_counterexample :
    callClaudeWithRetry api429ThenOk 3 = Except.error (rateLimitErrorOf (some "30")) ∧
    api429ThenOk 4 = Transport.ok "late success" :=
  ⟨rfl, rfl⟩

/-- Claim C3 (amended): with the default `maxRetries = 3` the operation is
attempted at most 3 times.  If the service returns HTTP 429 on the first two
attempts and succeeds on the third, the retried operation succeeds; if it
returns HTTP 429 on all three attempts, it fails with the `RateLimitError`
built from the last (third) attempt's retry-after header. -/
theorem callClaudeWithRetry_amended :
    (∀ (api : Nat → Transport) (s : String) (h1 h2 : Option String) (m1 m2 : String),
      api 1 = Transport.httpErr 429 h1 m1 → api 2 = Transport.httpErr 429 h2 m2 →
      api 3 = Transport.ok s → callClaudeWithRetry api 3 = Except.ok s) ∧
    (∀ (api : Nat → Transport) (h1 h2 h3 : Option String) (m1 m2 m3 : String),
      api 1 = Transport.httpErr 429 h1 m1 → api 2 = Transport.httpErr 429 h2 m2 →
      api 3 = Transport.httpErr 429 h3 m3 →
      callClaudeWithRetry api 3 = Except.error (rateLimitErrorOf h3)) := by
  constructor
  · intro api s h1 h2 m1 m2 e1 e2 e3
    simp [callClaudeWithRetry, retryGo, e1, e2, e3, callClaudeAPI, rateLimitErrorOf]
  · intro api h1 h2 h3 m1 m2 m3 e1 e2 e3
    simp [callClaudeWithRetry, retryGo, e1, e2, e3, callClaudeAPI, rateLimitErrorOf]

/-- Witness for C3 (amended): both branches at concrete transcripts — 429
twice then success succeeds with the third response, and 429 throughout
fails with the retry-after of attempt 3. -/
theorem callClaudeWithRetry_amended_witness :
    callClaudeWithRetry api429Twice 3 = Except.ok "third try" ∧
    callClaudeWithRetry apiAll429 3 = Except.error (rateLimitErrorOf (some "30")) :=
  ⟨callClaudeWithRetry_amended.1 api429Twice "third try" none none
      "rate limited" "rate limited" rfl rfl rfl,
    callClaudeWithRetry_amended.2 apiAll429 (some "10") (some "20") (some "30")
      "rate limited" "rate limited" "rate limited" rfl rfl rfl⟩

/-- Claim C4 as stated is false on the code: on the input
`\x7b"a":1\x7d \x7b"b":2\x7d` strategy 1 fails, no fenced block exists, and
the first balanced brace substring parses (so the claimed strategy 3
succeeds), yet the code raises a parse error because its third strategy
greedily takes the substring from the first opening brace to the last
closing brace. -/
theorem parse_first_balanced_counterexample :
    (jsonParse "\x7b\"a\":1\x7d \x7b\"b\":2\x7d").isNone = true ∧
    fencedJsonMatch "\x7b\"a\":1\x7d \x7b\"b\":2\x7d" = none ∧
    (firstBalancedBraces "\x7b\"a\":1\x7d \x7b\"b\":2\x7d").bind jsonParse =
      some (Json.obj [("a", Json.num 1)]) ∧
    greedyBracesMatch "\x7b\"a\":1\x7d \x7b\"b\":2\x7d" =
      some "\x7b\"a\":1\x7d \x7b\"b\":2\x7d" ∧
    parseClaudeResponse "\x7b\"a\":1\x7d \x7b\"b\":2\x7d" =
      Except.error "Failed to parse extracted JSON object" :=
  ⟨rfl, rfl, rfl, rfl, rfl⟩

/-- Claim C4 (amended): parsing tries up to three strategies in order —
(1) parse the whole text as JSON; (2) on failure, if a fenced code block
labeled json is present, parse its lazily-matched interior and raise a parse
error immediately when that fails, without attempting strategy 3; (3) only
when no fenced block is present, parse the greedy substring from the first
opening brace to the last closing brace — and a parse error is raised if and
only if every strategy actually attempted fails. -/
theorem parseClaudeResponse_amended (t : String) :
    (∀ j, jsonParse t = some j → parseClaudeResponse t = Except.ok j) ∧
    (jsonParse t = none → ∀ interior, fencedJsonMatch t = some interior →
      parseClaudeResponse t =
        match jsonParse interior with
        | some j => Except.ok j
        | none => Except.error "Failed to parse JSON from markdown block") ∧
    (jsonParse t = none → fencedJsonMatch t = none →
      ∀ sub, greedyBracesMatch t = some sub →
      parseClaudeResponse t =
        match jsonParse sub with
        | some j => Except.ok j
        | none => Except.error "Failed to parse extracted JSON object") ∧
    (jsonParse t = none → fencedJsonMatch t = none → greedyBracesMatch t = none →
      parseClaudeResponse t = Except.error "No valid JSON found in response") := by
  refine ⟨?_, ?_, ?_, ?_⟩
  · intro j hj; simp [parseClaudeResponse, hj]
  · intro h0 interior hf; simp [parseClaudeResponse, h0, hf]
  · intro h0 hf sub hs; simp [parseClaudeResponse, h0, hf, hs]
  · intro h0 hf hs; simp [parseClaudeResponse, h0, hf, hs]

/-- Witness for C4 (amended): a fenced block whose interior is not JSON
aborts with the markdown-block parse error even though a parseable brace
substring follows the fence. -/
theorem parseClaudeResponse_amended_witness :
    parseClaudeResponse "```json\nnot json\n``` \x7b\"a\":1\x7d" =
      Except.error "Failed to parse JSON from markdown block" := by
  have h := (parseClaudeResponse_amended "```json\nnot json\n``` \x7b\"a\":1\x7d").2.1
    rfl "not json" rfl
  simpa using h

/-- Claim C7 is right and the code is wrong at the download endpoint of the
second api/skills.js variant: `createSkillZip` reads the main document from
the `skill.md` property, but that endpoint supplies it under `SKILL.md`, so
the produced archive carries an empty root entry and the main document's
bytes appear nowhere in it; the generation path, which uses the `skill.md`
property, round-trips correctly. -/
theorem download_zip_drops_main_document :
    createSkillZip (downloadSkillFiles "# Demo skill main document"
        [("practices.md", "Practice notes")]) =
      { entries := [("skill.md", ""), ("references/practices.md", "Practice notes")],
        compressionMethod := "DEFLATE", compressionLevel := 9 } ∧
    ((createSkillZip (downloadSkillFiles "# Demo skill main document"
        [("practices.md", "Practice notes")])).entries.map Prod.snd).contains
      "# Demo skill main document" = false ∧
    createSkillZip (generatedSkillFiles "# Demo skill main document"
        [("practices.md", "Practice notes")]) =
      { entries := [("skill.md", "# Demo skill main document"),
                    ("references/practices.md", "Practice notes")],
        compressionMethod := "DEFLATE", compressionLevel := 9 } :=
  ⟨rfl, by decide, rfl⟩

/-- Overwriting an existing key and looking it up returns the new value. -/
theorem find?_map_overwrite {α : Type} (l : List (String × α)) (k : String) (v : α)
    (h : l.any (fun f => f.1 == k) = true) :
    (((l.map (fun f => if f.1 == k then (f.1, v) else f)).find?
        (fun f => f.1 == k)).map (fun f => f.2)) = some v := by
  induction l with
  | nil => simp at h
  | cons e tl ih =>
    rw [List.map_cons]
    by_cases he : (e.1 == k) = true
    · rw [if_pos he]
      simp only [List.find?, he]
      rfl
    · have he' : (e.1 == k) = false := Bool.eq_false_iff.mpr he
      rw [List.any_cons, he', Bool.false_or] at h
      rw [if_neg he]
      simp only [List.find?, he']
      exact ih h

/-- Appending a fresh key and looking it up returns the new value. -/
theorem find?_append_fresh {α : Type} (l : List (String × α)) (k : String) (v : α)
    (h : l.any (fun f => f.1 == k) = false) :
    (((l ++ [(k, v)]).find? (fun f => f.1 == k)).map (fun f => f.2)) = some v := by
  induction l with
  | nil => simp [List.find?]
  | cons e tl ih =>
    rw [List.any_cons, Bool.or_eq_false_iff] at h
    rw [List.cons_append]
    simp only [List.find?, h.1]
    exact ih h.2

/-- Property assignment on a JSON object makes the assigned value readable
back under the assigned key. -/
theorem jsGet_jsSetField (fields : List (String × Json)) (k : String) (v : Json) :
    jsGet (jsSetField (Json.obj fields) k v) k = some v := by
  by_cases hany : fields.any (fun f => f.1 == k) = true
  · show jsGet (if fields.any (fun f => f.1 == k) then _ else _) k = some v
    rw [if_pos hany]
    exact find?_map_overwrite fields k v hany
  · show jsGet (if fields.any (fun f => f.1 == k) then _ else _) k = some v
    rw [if_neg hany]
    exact find?_append_fresh fields k v (Bool.eq_false_iff.mpr hany)

/-- On an object the validator's first guard passes, leaving the
`extractedData` guard and the confidence branch. -/
theorem validate_obj_reduce (fields : List (String × Json)) :
    validateAnalysisResponse (Json.obj fields) =
      (if !((jsGet (Json.obj fields) "extractedData").map jsTruthy).getD false then
        Except.error "Missing extractedData field"
       else if confidenceValid (Json.obj fields) then Except.ok (Json.obj fields)
       else Except.ok (jsSetField (Json.obj fields) "confidence" (Json.num halfConfidence))) :=
  rfl

/-- Successful validation forces the input shape: an object with a truthy
`extractedData`, returned unchanged when the supplied confidence is valid
and with the default confidence assigned otherwise. -/
theorem validate_ok_cases (p v : Json) (h : validateAnalysisResponse p = Except.ok v) :
    ∃ fields w, p = Json.obj fields ∧
      jsGet (Json.obj fields) "extractedData" = some w ∧ jsTruthy w = true ∧
      ((confidenceValid p = true ∧ v = p) ∨
        (confidenceValid p = false ∧
          v = jsSetField p "confidence" (Json.num halfConfidence))) := by
  cases p with
  | null => simp [validateAnalysisResponse, jsTruthy] at h
  | bool b => simp [validateAnalysisResponse, jsTruthy, jsTypeofObject] at h
  | num q => simp [validateAnalysisResponse, jsTruthy, jsTypeofObject] at h
  | str s => simp [validateAnalysisResponse, jsTruthy, jsTypeofObject] at h
  | arr elems =>
    have hg : jsGet (Json.arr elems) "extractedData" = none := rfl
    simp [validateAnalysisResponse, jsTruthy, jsTypeofObject, hg] at h
  | obj fields =>
    rw [validate_obj_reduce] at h
    rcases hw : jsGet (Json.obj fields) "extractedData" with _ | w
    · rw [hw] at h
      simp at h
    · rw [hw] at h
      simp only [Option.map, Option.getD] at h
      by_cases htw : jsTruthy w = true
      · simp only [htw, Bool.not_true, Bool.false_eq_true, if_false] at h
        refine ⟨fields, w, rfl, hw, htw, ?_⟩
        by_cases hcv : confidenceValid (Json.obj fields) = true
        · rw [if_pos hcv] at h
          exact Or.inl ⟨hcv, (Except.ok.inj h).symm⟩
        · rw [if_neg hcv] at h
          exact Or.inr ⟨Bool.eq_false_iff.mpr hcv, (Except.ok.inj h).symm⟩
      · simp only [Bool.eq_false_iff.mpr htw] at h
        simp at h

/-- Claim C2 as stated is false on the code: a parsed response whose
`extractedData` field is present but null is rejected, so presence of the
field is not the only precondition for validation success (the value must
also be truthy). -/
theorem validate_presence_counterexample :
    jsGet (Json.obj [("extractedData", Json.null)]) "extractedData" = some Json.null ∧
    validateAnalysisResponse (Json.obj [("extractedData", Json.null)]) =
      Except.error "Missing extractedData field" :=
  ⟨rfl, rfl⟩

/-- Claim C2 (amended): validation succeeds exactly when the parsed value is
a JSON object whose `extractedData` field is present with a truthy value
(not null, false, 0, or the empty string); after successful validation the
confidence is a number in `[0,1]`; a valid supplied confidence is kept
unchanged, and a missing, non-numeric, or out-of-range confidence is
replaced by the fixed default 0.5 without failing. -/
theorem validateAnalysisResponse_amended :
    (∀ p, (∃ v, validateAnalysisResponse p = Except.ok v) ↔
      ∃ fields, p = Json.obj fields ∧
        ∃ w, jsGet p "extractedData" = some w ∧ jsTruthy w = true) ∧
    (∀ p v, validateAnalysisResponse p = Except.ok v →
      ∃ q, jsGet v "confidence" = some (Json.num q) ∧ 0 ≤ q ∧ q ≤ 1) ∧
    (∀ p v, validateAnalysisResponse p = Except.ok v → confidenceValid p = true →
      v = p) ∧
    (∀ p v, validateAnalysisResponse p = Except.ok v → confidenceValid p = false →
      jsGet v "confidence" = some (Json.num halfConfidence)) := by
  refine ⟨?_, ?_, ?_, ?_⟩
  · intro p
    constructor
    · rintro ⟨v, hv⟩
      obtain ⟨fields, w, rfl, hw, htw, _⟩ := validate_ok_cases p v hv
      exact ⟨fields, rfl, w, hw, htw⟩
    · rintro ⟨fields, rfl, w, hw, htw⟩
      by_cases hcv : confidenceValid (Json.obj fields) = true
      · refine ⟨Json.obj fields, ?_⟩
        rw [validate_obj_reduce, hw]
        simp [htw, hcv]
      · refine ⟨jsSetField (Json.obj fields) "confidence" (Json.num halfConfidence), ?_⟩
        rw [validate_obj_reduce, hw]
        simp [htw, Bool.eq_false_iff.mpr hcv]
  · intro p v h
    obtain ⟨fields, w, rfl, hw, htw, hcases⟩ := validate_ok_cases p v h
    rcases hcases with ⟨hcv, rfl⟩ | ⟨hcv, rfl⟩
    · rcases hc : jsGet (Json.obj fields) "confidence" with _ | w2
      · rw [confidenceValid, hc] at hcv
        simp at hcv
      · cases w2 with
        | num q =>
          rw [confidenceValid, hc] at hcv
          simp only [decide_eq_true_eq, Bool.and_eq_true] at hcv
          exact ⟨q, rfl, hcv.1, hcv.2⟩
        | null => rw [confidenceValid, hc] at hcv; simp at hcv
        | bool b => rw [confidenceValid, hc] at hcv; simp at hcv
        | str s => rw [confidenceValid, hc] at hcv; simp at hcv
        | arr elems => rw [confidenceValid, hc] at hcv; simp at hcv
        | obj fs => rw [confidenceValid, hc] at hcv; simp at hcv
    · exact ⟨halfConfidence, jsGet_jsSetField fields "confidence" (Json.num halfConfidence),
        by decide, by decide⟩
  · intro p v h hcv
    obtain ⟨fields, w, rfl, hw, htw, hcases⟩ := validate_ok_cases p v h
    rcases hcases with ⟨_, rfl⟩ | ⟨hcv2, _⟩
    · rfl
    · rw [hcv] at hcv2; cases hcv2
  · intro p v h hcv
    obtain ⟨fields, w, rfl, hw, htw, hcases⟩ := validate_ok_cases p v h
    rcases hcases with ⟨hcv2, _⟩ | ⟨_, rfl⟩
    · rw [hcv] at hcv2; cases hcv2
    · exact jsGet_jsSetField fields "confidence" (Json.num halfConfidence)

/-- Witness for C2 (amended): a response that omits confidence validates
successfully and reads back the default 0.5. -/
theorem validateAnalysisResponse_amended_witness :
    jsGet (jsSetField (Json.obj [("extractedData", Json.obj [])]) "confidence"
        (Json.num halfConfidence)) "confidence" = some (Json.num halfConfidence) :=
  validateAnalysisResponse_amended.2.2.2 (Json.obj [("extractedData", Json.obj [])])
    (jsSetField (Json.obj [("extractedData", Json.obj [])]) "confidence"
      (Json.num halfConfidence)) rfl rfl


/-- JavaScript `Map.set` followed by `Map.get` on the same key returns the
stored value. -/
theorem cacheGet_cacheSet (c : List (String × AnalysisResult)) (k : String)
    (v : AnalysisResult) : cacheGet (cacheSet c k v) k = some v := by
  unfold cacheGet cacheSet
  by_cases hany : c.any (fun e => e.1 == k) = true
  · rw [if_pos hany]
    exact find?_map_overwrite c k v hany
  · rw [if_neg hany]
    exact find?_append_fresh c k v (Bool.eq_false_iff.mpr hany)

/-- With valid inputs and the fingerprint already cached, `analyzeContent`
returns the cached result and leaves the state untouched. -/
theorem analyzeContent_hit (env : AnalysisEnv) (content contentType : String)
    (st : AnalysisState) (r : AnalysisResult)
    (h1 : (content == "" || decide (content.length < 10)) = false)
    (h2 : ¬50000 < content.length)
    (h3 : (!isKnownContentType contentType) = false)
    (hc : cacheGet st.cache (getCacheKey content contentType) = some r) :
    analyzeContent env content contentType st = (Except.ok r, st) := by
  unfold analyzeContent
  rw [if_neg (by simp [h1]), if_neg h2, if_neg (by simp [h3])]
  simp only [hc]

/-- A successful `analyzeContent` call implies the inputs were valid, the
result is cached in the final state under the fingerprint key, and at most
one service invocation happened. -/
theorem analyzeContent_ok_facts (env : AnalysisEnv) (content contentType : String)
    (st st1 : AnalysisState) (r : AnalysisResult)
    (h : analyzeContent env content contentType st = (Except.ok r, st1)) :
    (content == "" || decide (content.length < 10)) = false ∧
    ¬50000 < content.length ∧
    (!isKnownContentType contentType) = false ∧
    cacheGet st1.cache (getCacheKey content contentType) = some r ∧
    st1.svcCalls ≤ st.svcCalls + 1 := by
  unfold analyzeContent at h
  by_cases c1 : (content == "" || decide (content.length < 10)) = true
  · rw [if_pos c1] at h
    simp at h
  · rw [if_neg c1] at h
    by_cases c2 : 50000 < content.length
    · rw [if_pos c2] at h
      simp at h
    · rw [if_neg c2] at h
      by_cases c3 : (!isKnownContentType contentType) = true
      · rw [if_pos c3] at h
        simp at h
      · rw [if_neg c3] at h
        refine ⟨Bool.eq_false_iff.mpr c1, c2, Bool.eq_false_iff.mpr c3, ?_⟩
        rcases hc : cacheGet st.cache (getCacheKey content contentType) with _ | cached
        · simp only [hc] at h
          by_cases c4 : (!shouldAnalyzeContent content) = true
          · rw [if_pos c4] at h
            simp at h
          · rw [if_neg c4] at h
            cases hsvc : env.svc st.svcCalls with
            | error e =>
              simp only [hsvc] at h
              simp at h
            | ok text =>
              simp only [hsvc] at h
              cases hp : parseClaudeResponse text with
              | error msg =>
                simp only [hp] at h
                simp at h
              | ok parsed =>
                simp only [hp] at h
                cases hv : validateAnalysisResponse parsed with
                | error msg =>
                  simp only [hv] at h
                  simp at h
                | ok validated =>
                  simp only [hv] at h
                  rw [Prod.mk.injEq] at h
                  obtain ⟨hr, hst⟩ := h
                  rw [Except.ok.injEq] at hr
                  subst hr
                  rw [← hst]
                  constructor
                  · exact cacheGet_cacheSet _ _ _
                  · exact Nat.le_refl _
        · simp only [hc] at h
          rw [Prod.mk.injEq] at h
          obtain ⟨hr, hst⟩ := h
          rw [Except.ok.injEq] at hr
          subst hr
          rw [← hst]
          exact ⟨hc, Nat.le_succ _⟩

/-- Claim C5: within the TTL window (no expiry event between the calls), two
`analyzeContent` calls with the same content and content type invoke the
external service at most once — if the first call succeeded, the second
returns exactly the cached result, keyed by the deterministic fingerprint of
(content, contentType), with the state (in particular the service-invocation
counter) unchanged. -/
theorem analyzeContent_cache_hit (env : AnalysisEnv) (content contentType : String)
    (st st1 : AnalysisState) (r : AnalysisResult)
    (h : analyzeContent env content contentType st = (Except.ok r, st1)) :
    analyzeContent env content contentType st1 = (Except.ok r, st1) ∧
    st1.svcCalls ≤ st.svcCalls + 1 := by
  obtain ⟨c1, c2, c3, hc, hle⟩ := analyzeContent_ok_facts env content contentType st st1 r h
  exact ⟨analyzeContent_hit env content contentType st1 r c1 c2 c3 hc, hle⟩

/-- Witness for C5: a concrete first call caches the result, and the second
call returns it with the state unchanged. -/
theorem analyzeContent_cache_hit_witness :
    analyzeContent demoEnv demoContent "process" demoState1 = (Except.ok demoResult, demoState1) ∧
    demoState1.svcCalls ≤ demoState0.svcCalls + 1 :=
  analyzeContent_cache_hit demoEnv demoContent "process" demoState0 demoState1 demoResult rfl

/-- A slug character (lowercase letter, digit, or hyphen) is fixed by
lowercasing and is not whitespace. -/
theorem slugChar_facts (c : Char) (h : (isLowerAlnum c || c == '-') = true) :
    jsLowerChar c = c ∧ isJsWhitespace c = false := by
  have hn : (97 ≤ c.toNat ∧ c.toNat ≤ 122) ∨ (48 ≤ c.toNat ∧ c.toNat ≤ 57) ∨
      c.toNat = 45 := by
    simp only [isLowerAlnum, Bool.or_eq_true, Bool.and_eq_true, decide_eq_true_eq,
      beq_iff_eq] at h
    rcases h with (h | h) | h
    · exact Or.inl h
    · exact Or.inr (Or.inl h)
    · subst h; exact Or.inr (Or.inr rfl)
  constructor
  · have hno : ¬((65 ≤ c.toNat && c.toNat ≤ 90) = true) := by
      simp only [Bool.and_eq_true, decide_eq_true_eq]
      omega
    simp only [jsLowerChar, if_neg hno]
  · apply Bool.eq_false_iff.mpr
    intro hw
    simp only [isJsWhitespace, Bool.or_eq_true, Bool.and_eq_true, decide_eq_true_eq] at hw
    omega

/-- Dropping with a predicate that is false on every element changes
nothing. -/
theorem dropWhile_eq_self_of_false {α : Type} (p : α → Bool) (l : List α)
    (h : ∀ c ∈ l, p c = false) : l.dropWhile p = l := by
  cases l with
  | nil => rfl
  | cons a tl =>
    rw [List.dropWhile_cons, h a (List.mem_cons_self a tl)]
    simp

/-- The hyphen-collapse pass is the identity on hyphen-separated slug
strings: all characters in `[a-z0-9-]` with no two consecutive hyphens. -/
theorem collapseAux_fix (l : List Char)
    (hall : ∀ c ∈ l, (isLowerAlnum c || c == '-') = true)
    (hnd : noDoubleHyphen l = true) :
    collapseAux false l = l ∧ (l.head? ≠ some '-' → collapseAux true l = l) := by
  induction l with
  | nil => exact ⟨rfl, fun _ => rfl⟩
  | cons c cs ih =>
    have hc := hall c (List.mem_cons_self c cs)
    have hall' : ∀ d ∈ cs, (isLowerAlnum d || d == '-') = true :=
      fun d hd => hall d (List.mem_cons_of_mem c hd)
    have hnd' : noDoubleHyphen cs = true := by
      cases cs with
      | nil => rfl
      | cons d ds =>
        simp only [noDoubleHyphen, Bool.and_eq_true] at hnd
        exact hnd.2
    by_cases ha : isLowerAlnum c = true
    · have h1 : collapseAux false cs = cs := (ih hall' hnd').1
      constructor
      · simp only [collapseAux, if_pos ha, h1]
      · intro _
        simp only [collapseAux, if_pos ha, h1]
    · have hc45 : c = '-' := by
        rw [Bool.or_eq_true] at hc
        rcases hc with h | h
        · exact absurd h ha
        · exact beq_iff_eq.mp h
      subst hc45
      have hhead : cs.head? ≠ some '-' := by
        cases cs with
        | nil => simp
        | cons d ds =>
          simp only [noDoubleHyphen, Bool.and_eq_true] at hnd
          have hd := hnd.1
          simp only [Bool.not_eq_true', Bool.and_eq_false_iff] at hd
          rcases hd with hd | hd
          · simp at hd
          · simp only [List.head?_cons, ne_eq, Option.some.injEq]
            intro hcon
            rw [hcon] at hd
            simp at hd
      have h2 : collapseAux true cs = cs := (ih hall' hnd').2 hhead
      have hna : isLowerAlnum '-' = false := rfl
      constructor
      · simp only [collapseAux, hna, Bool.false_eq_true, if_false, if_neg, h2]
      · intro hcontra
        simp at hcontra

/-- Stripping edge hyphens is the identity when neither end is a hyphen. -/
theorem stripEdgeHyphens_fix (l : List Char)
    (hh : ¬l.head? = some '-') (hl : ¬l.getLast? = some '-') :
    stripEdgeHyphens l = l := by
  unfold stripEdgeHyphens
  have h1 : l.dropWhile (fun c => c == '-') = l := by
    cases l with
    | nil => rfl
    | cons a tl =>
      have ha : (a == '-') = false := by
        simp only [List.head?_cons, Option.some.injEq] at hh
        simpa using hh
      rw [List.dropWhile_cons, ha]
      simp
  rw [h1]
  have h2 : l.reverse.dropWhile (fun c => c == '-') = l.reverse := by
    cases hr : l.reverse with
    | nil => rfl
    | cons a tl =>
      have ha : (a == '-') = false := by
        have : l.reverse.head? = some a := by rw [hr]; rfl
        rw [List.head?_reverse] at this
        rw [this] at hl
        simpa using hl
      rw [List.dropWhile_cons, ha]
      simp
  rw [h2, List.reverse_reverse]

/-- Claim C6 as stated is false on the code: `a--b` is lowercase,
alphanumeric-and-hyphen, with no leading or trailing hyphen — normalized in
the claim's sense — yet normalizing it collapses the double hyphen and
returns `a-b`. -/
theorem formatSkillName_double_hyphen_counterexample :
    specNormalizedName "a--b" = true ∧ formatSkillName "a--b" ≠ "a--b" ∧
    formatSkillName "a--b" = "a-b" := by
  refine ⟨by decide, by decide, by decide⟩

/-- Claim C6 (amended): `formatSkillName` is the identity on every name that
is lowercase alphanumerics and hyphens with no leading or trailing hyphen
and no two consecutive hyphens (consecutive hyphens are additionally
collapsed, so the claim's normal form must exclude them); and normalizing
"My Skill!!" yields "my-skill". -/
theorem formatSkillName_idempotent_amended :
    (∀ name : String, specNormalizedName name = true →
      noDoubleHyphen name.data = true → formatSkillName name = name) ∧
    formatSkillName "My Skill!!" = "my-skill" := by
  constructor
  · intro name hspec hnd
    obtain ⟨l⟩ := name
    simp only [specNormalizedName, Bool.and_eq_true] at hspec
    obtain ⟨⟨hall, hh⟩, hl⟩ := hspec
    have hall' : ∀ c ∈ l, (isLowerAlnum c || c == '-') = true := by
      rw [List.all_eq_true] at hall
      exact fun c hc => hall c hc
    have hh' : ¬l.head? = some '-' := by simpa using hh
    have hl' : ¬l.getLast? = some '-' := by simpa using hl
    have hmap : l.map jsLowerChar = l := by
      have := List.map_congr_left (fun c hc => (slugChar_facts c (hall' c hc)).1)
      simpa using this
    have htrim : jsTrimChars l = l := by
      unfold jsTrimChars
      rw [dropWhile_eq_self_of_false _ _ (fun c hc => (slugChar_facts c (hall' c hc)).2)]
      rw [dropWhile_eq_self_of_false _ _
        (fun c hc => (slugChar_facts c (hall' c (List.mem_reverse.mp hc))).2)]
      exact List.reverse_reverse l
    show (⟨stripEdgeHyphens (collapseNonAlnum (jsTrimChars ((⟨l⟩ : String).data.map jsLowerChar)))⟩ : String) = ⟨l⟩
    have hdata : (⟨l⟩ : String).data = l := rfl
    rw [hdata, hmap, htrim]
    unfold collapseNonAlnum
    rw [(collapseAux_fix l hall' (by simpa using hnd)).1]
    rw [stripEdgeHyphens_fix l hh' hl']
  · decide

/-- Witness for C6 (amended): the already-normalized name `my-skill` is
fixed by normalization. -/
theorem formatSkillName_idempotent_amended_witness :
    specNormalizedName "my-skill" = true ∧ noDoubleHyphen "my-skill".data = true ∧
    formatSkillName "my-skill" = "my-skill" :=
  ⟨by decide, by decide,
    formatSkillName_idempotent_amended.1 "my-skill" (by decide) (by decide)⟩

/-- The empty store satisfies the invariant. -/
theorem storeInv_init : StoreInv initDb := by
  refine ⟨?_, ?_, ?_, ?_⟩ <;> simp [initDb, snapsFor, StoreInv]

/-- A fresh skill id has no snapshot rows. -/
theorem snapsFor_fresh (db : SkillsDb) (hinv : StoreInv db) :
    snapsFor db db.nextId = [] := by
  obtain ⟨inv1, -, inv3, -⟩ := hinv
  rw [snapsFor, List.filter_eq_nil_iff]
  intro v hv
  obtain ⟨s, hs, hsid⟩ := inv3 v hv
  have hlt := inv1 s hs
  simp only [decide_eq_true_eq]
  omega

/-- Creation preserves the store invariant. -/
theorem storeInv_create (db : SkillsDb) (n d t m : String)
    (r : List (String × String)) (md : Json) (hinv : StoreInv db)
    (db1 : SkillsDb) (newId : Nat)
    (h : createSkill db n d t m r md = Except.ok (db1, newId)) : StoreInv db1 := by
  have hfresh := snapsFor_fresh db hinv
  obtain ⟨inv1, inv2, inv3, inv4⟩ := hinv
  unfold createSkill at h
  split at h
  · simp at h
  · split at h
    · simp at h
    · rw [Except.ok.injEq, Prod.mk.injEq] at h
      obtain ⟨hdb, -⟩ := h
      subst hdb
      refine ⟨?_, ?_, ?_, ?_⟩
      · intro s hs
        simp only [List.mem_append, List.mem_singleton] at hs
        rcases hs with hs | hs
        · exact Nat.lt_succ_of_lt (inv1 s hs)
        · subst hs
          exact Nat.lt_succ_self _
      · rw [List.map_append, List.nodup_append]
        refine ⟨inv2, List.nodup_singleton _, ?_⟩
        intro a ha hb
        simp only [List.map_cons, List.map_nil, List.mem_singleton] at hb
        subst hb
        rw [List.mem_map] at ha
        obtain ⟨s, hs, hsid⟩ := ha
        have := inv1 s hs
        omega
      · intro v hv
        obtain ⟨s, hs, hsid⟩ := inv3 v hv
        exact ⟨s, List.mem_append_left _ hs, hsid⟩
      · intro s hs
        simp only [List.mem_append, List.mem_singleton] at hs
        rcases hs with hs | hs
        · exact inv4 s hs
        · subst hs
          refine ⟨Nat.le_refl 1, ?_⟩
          show (snapsFor db db.nextId).map (fun v => v.version) = _
          rw [hfresh]
          rfl

/-- Replacing the found row and searching again finds the replacement. -/
theorem find?_replace (l : List SkillRow) (id : Nat) (newRow cur : SkillRow)
    (h : l.find? (fun s => s.id = id) = some cur) (hnew : newRow.id = id) :
    (l.map (fun s => if s.id = id then newRow else s)).find? (fun s => s.id = id) =
      some newRow := by
  induction l with
  | nil => simp [List.find?] at h
  | cons e tl ih =>
    by_cases he : e.id = id
    · have hd : decide (newRow.id = id) = true := by simp [hnew]
      simp only [List.map_cons, if_pos he, List.find?, hd]
    · have he' : decide (e.id = id) = false := by simp [he]
      simp only [List.find?, he'] at h
      simp only [List.map_cons, if_neg he, List.find?, he']
      exact ih h

/-- Updating preserves the store invariant. -/
theorem storeInv_update (db : SkillsDb) (id : Nat) (req : UpdateReq)
    (hinv : StoreInv db) (db1 : SkillsDb) (ver : Nat)
    (h : updateSkill db id req = Except.ok (db1, ver)) : StoreInv db1 := by
  obtain ⟨inv1, inv2, inv3, inv4⟩ := hinv
  unfold updateSkill at h
  split at h
  · simp at h
  · split at h
    · simp at h
    · rename_i cur hfind
      split at h
      · simp at h
      · split at h
        · simp at h
        · rw [Except.ok.injEq, Prod.mk.injEq] at h
          obtain ⟨hdb, -⟩ := h
          subst hdb
          have hcur_mem : cur ∈ db.skills := List.mem_of_find?_eq_some hfind
          have hcur_id : cur.id = id := by
            have := List.find?_some hfind
            simpa using this
          have hnewRow_id : (applyUpdateFields cur req).id = id := hcur_id
          have hpoint : ∀ s, (if s.id = id then applyUpdateFields cur req else s).id = s.id := by
            intro s
            by_cases hsid : s.id = id
            · rw [if_pos hsid, hnewRow_id, hsid]
            · rw [if_neg hsid]
          have hids : (db.skills.map (fun s => if s.id = id then applyUpdateFields cur req else s)).map
              (fun s => s.id) = db.skills.map (fun s => s.id) := by
            rw [List.map_map]
            exact List.map_congr_left (fun s _ => hpoint s)
          refine ⟨?_, ?_, ?_, ?_⟩
          · intro s' hs'
            rw [List.mem_map] at hs'
            obtain ⟨s, hs, hfs⟩ := hs'
            rw [← hfs, hpoint s]
            exact inv1 s hs
          · show ((db.skills.map (fun s => if s.id = id then applyUpdateFields cur req else s)).map
              (fun s => s.id)).Nodup
            rw [hids]
            exact inv2
          · intro v hv
            simp only [List.mem_append, List.mem_singleton] at hv
            rcases hv with hv | hv
            · obtain ⟨s, hs, hsid⟩ := inv3 v hv
              have hmem := List.mem_map_of_mem
                (fun r => if r.id = id then applyUpdateFields cur req else r) hs
              refine ⟨(fun r => if r.id = id then applyUpdateFields cur req else r) s, hmem, ?_⟩
              show (if s.id = id then applyUpdateFields cur req else s).id = v.skillId
              rw [hpoint s]
              exact hsid
            · subst hv
              have hmem := List.mem_map_of_mem
                (fun r => if r.id = id then applyUpdateFields cur req else r) hcur_mem
              simp only [hcur_id, if_true] at hmem
              exact ⟨applyUpdateFields cur req, hmem, hnewRow_id⟩
          · intro s' hs'
            rw [List.mem_map] at hs'
            obtain ⟨s, hs, hfs⟩ := hs'
            by_cases hsid : s.id = id
            · have hseq : s = cur := by
                apply List.inj_on_of_nodup_map inv2 hs hcur_mem
                rw [hsid, hcur_id]
              subst hseq
              rw [if_pos hsid] at hfs
              subst hfs
              obtain ⟨hv1, hv4⟩ := inv4 s hs
              have hkey : (applyUpdateFields s req).id = s.id := hnewRow_id.trans hsid.symm
              have hver : (applyUpdateFields s req).version = s.version + 1 := rfl
              have hsf : snapsFor
                  { skills := db.skills.map (fun r => if r.id = id then applyUpdateFields s req else r),
                    versions := db.versions ++ [snapshotOf s id],
                    nextId := db.nextId } s.id =
                  snapsFor db s.id ++ [snapshotOf s id] := by
                simp only [snapsFor]
                rw [List.filter_append]
                congr 1
                simp [snapshotOf, hsid]
              constructor
              · rw [hver]
                omega
              · rw [hkey, hver, hsf, List.map_append, hv4]
                have hs1 : s.version + 1 - 1 = (s.version - 1) + 1 := by omega
                rw [hs1, List.range'_concat]
                have hs2 : 1 + 1 * (s.version - 1) = s.version := by omega
                rw [hs2]
                rfl
            · rw [if_neg hsid] at hfs
              subst hfs
              obtain ⟨hv1, hv4⟩ := inv4 s hs
              refine ⟨hv1, ?_⟩
              have hsf : snapsFor
                  { skills := db.skills.map (fun r => if r.id = id then applyUpdateFields cur req else r),
                    versions := db.versions ++ [snapshotOf cur id],
                    nextId := db.nextId } s.id = snapsFor db s.id := by
                simp only [snapsFor]
                rw [List.filter_append]
                have hnil : List.filter (fun v => decide (v.skillId = s.id)) [snapshotOf cur id] = [] := by
                  simp [snapshotOf]
                  omega
                rw [hnil, List.append_nil]
              rw [hsf]
              exact hv4

/-- Deletion preserves the store invariant. -/
theorem storeInv_delete (db : SkillsDb) (id : Nat) (hinv : StoreInv db) :
    StoreInv (deleteSkill db id) := by
  obtain ⟨inv1, inv2, inv3, inv4⟩ := hinv
  refine ⟨?_, ?_, ?_, ?_⟩
  · intro s hs
    simp only [deleteSkill] at hs
    exact inv1 s (List.mem_of_mem_filter hs)
  · show ((db.skills.filter _).map (fun s => s.id)).Nodup
    exact ((List.filter_sublist _).map _).nodup inv2
  · intro v hv
    simp only [deleteSkill, List.mem_filter] at hv
    obtain ⟨s, hs, hsid⟩ := inv3 v hv.1
    have hvne : ¬v.skillId = id := by
      have := hv.2
      simpa using this
    refine ⟨s, ?_, hsid⟩
    simp only [deleteSkill, List.mem_filter]
    refine ⟨hs, ?_⟩
    simp only [Bool.not_eq_eq_eq_not, Bool.not_true, decide_eq_false_iff_not]
    omega
  · intro s hs
    simp only [deleteSkill, List.mem_filter] at hs
    obtain ⟨hv1, hv4⟩ := inv4 s hs.1
    refine ⟨hv1, ?_⟩
    have hne : ¬s.id = id := by
      have := hs.2
      simpa using this
    have hfilter : snapsFor (deleteSkill db id) s.id = snapsFor db s.id := by
      simp only [deleteSkill, snapsFor]
      rw [List.filter_filter]
      apply List.filter_congr
      intro v _
      by_cases hvs : v.skillId = s.id
      · simp [hvs]
        omega
      · simp [hvs]
    rw [hfilter]
    exact hv4

/-- Every API operation preserves the store invariant. -/
theorem storeInv_applyOp (db : SkillsDb) (op : DbOp) (hinv : StoreInv db) :
    StoreInv (applyOp db op) := by
  cases op with
  | create n d t m r md =>
    simp only [applyOp]
    cases hc : createSkill db n d t m r md with
    | ok res =>
      obtain ⟨db1, newId⟩ := res
      exact storeInv_create db n d t m r md hinv db1 newId hc
    | error e => exact hinv
  | update id req =>
    simp only [applyOp]
    cases hu : updateSkill db id req with
    | ok res =>
      obtain ⟨db1, ver⟩ := res
      exact storeInv_update db id req hinv db1 ver hu
    | error e => exact hinv
  | delete id =>
    simp only [applyOp]
    exact storeInv_delete db id hinv

/-- Every store reachable from the empty database satisfies the
invariant. -/
theorem storeInv_execOps (ops : List DbOp) : StoreInv (execOps ops) := by
  suffices hstep : ∀ db, StoreInv db → StoreInv (ops.foldl applyOp db) from
    hstep initDb storeInv_init
  induction ops with
  | nil => exact fun db h => h
  | cons op rest ih =>
    intro db h
    exact ih (applyOp db op) (storeInv_applyOp db op h)

/-- Claim C1: in every store reachable through the API from an empty
database, each skill's `version` equals 1 + the number of its snapshot rows
in `skill_versions`, and those snapshots carry exactly the distinct versions
`1..N` (a created skill starts at version 1 with zero snapshots, and each
successful update adds one snapshot of the prior version). -/
theorem skill_version_invariant (ops : List DbOp) :
    (execOps ops).skills.Forall (fun s =>
      s.version = (snapsFor (execOps ops) s.id).length + 1 ∧
      (snapsFor (execOps ops) s.id).map (fun v => v.version) =
        List.range' 1 ((snapsFor (execOps ops) s.id).length)) := by
  rw [List.forall_iff_forall_mem]
  intro s hs
  obtain ⟨-, -, -, inv4⟩ := storeInv_execOps ops
  obtain ⟨h1, h4⟩ := inv4 s hs
  have hlen : (snapsFor (execOps ops) s.id).length = s.version - 1 := by
    have hcong := congrArg List.length h4
    simpa using hcong
  constructor
  · omega
  · rw [h4, hlen]

/-- Claim C8 is right about both creation and uniqueness, but the update
path violates the slug invariant: renaming through `PUT /api/skills/:id`
stores the raw request name verbatim, bypassing `formatSkillName` and the
slug regex, so a stored name need not be a normalized slug. -/
theorem update_bypasses_name_normalization :
    (execOps demoOpsRename).skills.map (fun s => s.name) = ["My Skill!!"] ∧
    isSlugString "My Skill!!" = false ∧
    isSlugString (formatSkillName "My Skill!!") = true :=
  ⟨rfl, by decide, by decide⟩

/-- Claim C10: in the update operation a provided falsy field — the
empty-string description, the only falsy value that passes request
validation — is treated exactly as an absent field: the update behaves
identically to one without the field, the stored description keeps its prior
value, and the version is still incremented with a snapshot still
written. -/
theorem update_ignores_falsy_description :
    (∀ (db : SkillsDb) (id : Nat) (req : UpdateReq),
      updateSkill db id { req with reqDescription := some "" } =
        updateSkill db id { req with reqDescription := none }) ∧
    (∀ (db : SkillsDb) (id : Nat) (req : UpdateReq) (db1 : SkillsDb) (ver : Nat)
      (s : SkillRow), findSkill db id = some s →
      updateSkill db id { req with reqDescription := some "" } = Except.ok (db1, ver) →
      (findSkill db1 id).map (fun s1 => (s1.description, s1.version)) =
        some (s.description, s.version + 1) ∧
      (snapsFor db1 id).length = (snapsFor db id).length + 1 ∧
      ver = s.version + 1) := by
  constructor
  · intro db id req
    rfl
  · intro db id req db1 ver s hfind hupd
    have hsid : s.id = id := by
      have := List.find?_some hfind
      simpa using this
    unfold updateSkill at hupd
    split at hupd
    · simp at hupd
    · split at hupd
      · rename_i hnone
        rw [hfind] at hnone
        cases hnone
      · rename_i cur hsome
        have hcs : cur = s := by
          rw [hfind] at hsome
          exact (Option.some.inj hsome).symm
        subst hcs
        split at hupd
        · simp at hupd
        · split at hupd
          · simp at hupd
          · rw [Except.ok.injEq, Prod.mk.injEq] at hupd
            obtain ⟨hdb, hver⟩ := hupd
            subst hdb
            refine ⟨?_, ?_, hver.symm⟩
            · rw [show findSkill
                  { skills := db.skills.map (fun r => if r.id = id then
                      applyUpdateFields cur { req with reqDescription := some "" } else r),
                    versions := db.versions ++ [snapshotOf cur id],
                    nextId := db.nextId } id =
                  some (applyUpdateFields cur { req with reqDescription := some "" }) from
                find?_replace db.skills id _ cur hfind hsid]
              rfl
            · show (List.filter _ (db.versions ++ [snapshotOf cur id])).length = _
              rw [List.filter_append, List.length_append]
              have hone : (List.filter (fun v => v.skillId = id) [snapshotOf cur id]).length = 1 := by
                simp [snapshotOf]
              rw [hone]
              rfl

/-- Witness for C10: updating the one-skill store with an empty-string
description keeps the description, bumps the version to 2, and writes one
snapshot. -/
theorem update_ignores_falsy_description_witness :
    (findSkill demoDbOneUpdated 1).map (fun s1 => (s1.description, s1.version)) =
      some ("d", 2) ∧
    (snapsFor demoDbOneUpdated 1).length = (snapsFor demoDbOne 1).length + 1 ∧
    (2 : Nat) = 1 + 1 :=
  update_ignores_falsy_description.2 demoDbOne 1 emptyDescriptionReq
    demoDbOneUpdated 2 demoRowOne rfl rfl

end SkillsFactory
